import Mathlib

/-!
Shallow embedding of the preprocessing / postprocessing / conversion-cache
logic of the openvino_notebooks demo notebooks (FreeVC voice conversion,
EnCodec audio compression, SlowFast video recognition), together with
theorems settling the specification claims about that logic.

Machine floats of the source are modelled by exact rationals or reals;
external library calls (cv2.resize interpolation, the compiled neural
networks) are modelled as opaque parameters or shape-faithful stand-ins,
as documented at each definition.
-/

namespace OVNB

/-! ## Conversion Step cache (FreeVC cell "if not ir_cmodel_path.exists()",
    EnCodec cell "if not OV_ENCODER_PATH.exists()") -/

/-- Embedding of the conversion cache block

    if not ir_cmodel_path.exists():
        ir_cmodel = ov.convert_model(onnx_cmodel_path)
        ov.save_model(ir_cmodel, ir_cmodel_path)
    else:
        ir_cmodel = core.read_model(ir_cmodel_path)

`cache` is the content of the artifact file at the cache path (`none` when
the file does not exist), `convert` is the external `ov.convert_model`
step.  The result is the in-memory model together with the content of the
artifact file after the step. -/
def conversion_step {Src Art : Type} (convert : Src → Art) (source : Src)
    (cache : Option Art) : Art × Option Art :=
  match cache with
  | none => (convert source, some (convert source))
  | some a => (a, some a)

/-! ## EnCodec gradio demo adaptors (234-encodec-audio-compression) -/

/-- Truncation of a rational toward zero: the behaviour of a numpy cast
from a float value to an integer dtype. -/
def ratTrunc (q : ℚ) : ℤ :=
  if 0 ≤ q then ⌊q⌋ else ⌈q⌉

/-- Wrap-around of `astype(np.int16)` into the interval [-2^15, 2^15). -/
def int16cast (z : ℤ) : ℤ :=
  (z + 2 ^ 15) % 2 ^ 16 - 2 ^ 15

/-- Embedding of

    def preprocess(input, sample_rate, model_sr, model_channels):
        input = torch.tensor(input, dtype=torch.float32)
        input = input / 2**15  # adjust to int16 scale
        input = input.unsqueeze(0)
        input = convert_audio(input, sample_rate, model_sr, model_channels)
        return input

The int16 waveform is a list of integers; `unsqueeze(0)` turns the
(T)-shaped tensor into the (1, T)-shaped nested list; `convert_audio` is
the external resampling/channel-folding routine, taken as a parameter. -/
def preprocess (convert_audio : List (List ℚ) → List (List ℚ))
    (input : List ℤ) : List (List ℚ) :=
  convert_audio [input.map (fun x : ℤ => (x : ℚ) / 2 ^ 15)]

/-- Embedding of

    def postprocess(output):
        output = output.squeeze()
        output = output * 2**15
        output = output.numpy(force=True)
        output = output.astype(np.int16)
        return output

applied to a (1, T)-shaped model output, for which `squeeze` drops the
leading unit axis. -/
def postprocess (output : List (List ℚ)) : List ℤ :=
  (output.headD []).map (fun q => int16cast (ratTrunc (q * 2 ^ 15)))

/-! ## FreeVC speaker-encoder slicing (part_000, compute_partial_slices) -/

/-- Rounding as performed by numpy.round: round half to even. -/
def roundHalfEven (q : ℚ) : ℤ :=
  if q - ⌊q⌋ < 1 / 2 then ⌊q⌋
  else if 1 / 2 < q - ⌊q⌋ then ⌊q⌋ + 1
  else if 2 ∣ ⌊q⌋ then ⌊q⌋ else ⌊q⌋ + 1

/-- Elements of the Python iteration range(0, steps, step) for positive
step: the multiples of step below steps, of which there are
ceil(steps / step) many. -/
def pyRange (steps step : ℕ) : List ℕ :=
  (List.range ((steps + step - 1) / step)).map (· * step)

/-- Embedding of compute_partial_slices from the FreeVC notebook.  The
hyperparameters sampling_rate, mel_window_step and partials_n_frames are
imported there from the external speaker_encoder.hparams module and are
taken as parameters here.  A slice(a, b) is modelled as the pair (a, b);
the result pairs the wav slices with the mel slices.  A failing assert
(and the ZeroDivisionError when samples_per_frame is zero) is modelled as
none.  Machine floats are modelled by exact rationals. -/
def compute_partial_slices (sampling_rate mel_window_step partials_n_frames
    n_samples : ℕ) (rate min_coverage : ℚ) :
    Option (List (ℕ × ℕ) × List (ℕ × ℕ)) :=
  if ¬ (0 < min_coverage ∧ min_coverage ≤ 1) then none
  else
    let samples_per_frame := sampling_rate * mel_window_step / 1000
    if samples_per_frame = 0 then none
    else
      -- n_frames = int(np.ceil((n_samples + 1) / samples_per_frame))
      let n_frames := (n_samples + samples_per_frame) / samples_per_frame
      let frame_step :=
        roundHalfEven ((sampling_rate : ℚ) / rate / (samples_per_frame : ℚ))
      if ¬ (0 < frame_step ∧ frame_step ≤ (partials_n_frames : ℤ)) then none
      else
        let fs := frame_step.toNat
        -- steps = max(1, n_frames - partials_n_frames + frame_step + 1),
        -- with truncated ℕ subtraction agreeing with the Python int value
        -- because of the outer max with 1
        let steps := max 1 (n_frames + fs + 1 - partials_n_frames)
        let mel_slices :=
          (pyRange steps fs).map (fun i => (i, i + partials_n_frames))
        let wav_slices := mel_slices.map
          (fun p => (p.1 * samples_per_frame, p.2 * samples_per_frame))
        let last_wav_range := wav_slices.getLastD (0, 0)
        let coverage : ℚ := ((n_samples : ℚ) - last_wav_range.1) /
          ((last_wav_range.2 : ℚ) - (last_wav_range.1 : ℚ))
        if coverage < min_coverage ∧ 1 < mel_slices.length then
          some (wav_slices.dropLast, mel_slices.dropLast)
        else
          some (wav_slices, mel_slices)

/-! ## SlowFast video recognition preprocessing
    (210-slowfast-video-recognition) -/

/-- A video frame as decoded by cv2: a height x width x 3 array of pixel
values.  Pixel values are modelled as exact rationals; the data function
is total, with the shape carried by the height and width fields. -/
structure Image where
  height : ℕ
  width : ℕ
  px : ℕ → ℕ → Fin 3 → ℚ

/-- The all-zero frame, used as the default for list lookups. -/
def zeroImage : Image := ⟨0, 0, fun _ _ _ => 0⟩

/-- A rank-4 array in (T, H, W, C=3) layout, as produced by np.array on a
list of frames. -/
structure Arr4C where
  d0 : ℕ
  d1 : ℕ
  d2 : ℕ
  px : ℕ → ℕ → ℕ → Fin 3 → ℚ

/-- A rank-4 array with anonymous axes, used for the (C, T, H, W) layout
after the transpose. -/
structure Arr4 where
  d0 : ℕ
  d1 : ℕ
  d2 : ℕ
  d3 : ℕ
  px : ℕ → ℕ → ℕ → ℕ → ℚ

/-- The all-zero rank-4 array, used as the default for list lookups. -/
def arr4zero : Arr4 := ⟨0, 0, 0, 0, fun _ _ _ _ => 0⟩

/-- A rank-5 array, the result of np.expand_dims on a rank-4 array. -/
structure Arr5 where
  d0 : ℕ
  d1 : ℕ
  d2 : ℕ
  d3 : ℕ
  d4 : ℕ
  px : ℕ → ℕ → ℕ → ℕ → ℕ → ℚ

/-- Model of the external call cv2.resize(frame, (new_w, new_h),
interpolation=cv2.INTER_LINEAR): the library guarantees an output of
shape new_h x new_w x 3; the interpolated pixel values are computed
outside this repository and are modelled by nearest-neighbour sampling
(no claim depends on the interpolated values). -/
def cv2resize (frame : Image) (new_w new_h : ℕ) : Image :=
  ⟨new_h, new_w,
    fun y x c => frame.px (y * frame.height / new_h) (x * frame.width / new_w) c⟩

/-- Embedding of scale_short_side: return the frame unchanged when the
short side already equals size, otherwise resize so that the short side
becomes size, the long side scaled by floor((long / short) * size).  The
float ratio arithmetic of the source is modelled exactly over ℚ, whose
floor coincides with ℕ division. -/
def scale_short_side (size : ℕ) (frame : Image) : Image :=
  if (frame.width ≤ frame.height ∧ frame.width = size) ∨
      (frame.height ≤ frame.width ∧ frame.height = size) then frame
  else if frame.width < frame.height then
    cv2resize frame size (frame.height * size / frame.width)
  else
    cv2resize frame (frame.width * size / frame.height) size

/-- Embedding of center_crop: offsets are ceil((dim - size) / 2) computed
over ℚ as in the source float arithmetic; the Python slice
frame[y : y + size, x : x + size, :] yields a size x size frame exactly
when the offsets are nonnegative and the window fits, which is also
exactly when the two shape asserts of the source pass; a failing assert
is modelled as none. -/
def center_crop (size : ℕ) (frame : Image) : Option Image :=
  let y_offset : ℤ := ⌈((frame.height : ℚ) - (size : ℚ)) / 2⌉
  let x_offset : ℤ := ⌈((frame.width : ℚ) - (size : ℚ)) / 2⌉
  if 0 ≤ y_offset ∧ 0 ≤ x_offset ∧ y_offset.toNat + size ≤ frame.height ∧
      x_offset.toNat + size ≤ frame.width then
    some ⟨size, size, fun y x c => frame.px (y_offset.toNat + y) (x_offset.toNat + x) c⟩
  else
    none

/-- Embedding of np.array on a list of frames: stacks them into a
(T, H, W, 3) array, the spatial dims taken from the first frame (the
source only stacks homogeneous lists). -/
def stackFrames (l : List Image) : Arr4C :=
  ⟨l.length, (l.headD zeroImage).height, (l.headD zeroImage).width,
    fun t y x c => (l.getD t zeroImage).px y x c⟩

/-- Elementwise division by 255, the astype(np.float32) / 255 step. -/
def div255 (a : Arr4C) : Arr4C :=
  ⟨a.d0, a.d1, a.d2, fun t y x c => a.px t y x c / 255⟩

/-- Embedding of normalize on the already-float stacked array (the uint8
branch of the source is not taken there): subtract the per-channel mean
and divide by the per-channel std, broadcasting over the last axis. -/
def normalize (mean std : Fin 3 → ℚ) (a : Arr4C) : Arr4C :=
  ⟨a.d0, a.d1, a.d2, fun t y x c => (a.px t y x c - mean c) / std c⟩

/-- The transpose([3, 0, 1, 2]) step: (T, H, W, C) to (C, T, H, W). -/
def transposeCTHW (a : Arr4C) : Arr4 :=
  ⟨3, a.d0, a.d1, a.d2,
    fun c t y x => if hc : c < 3 then a.px t y x ⟨c, hc⟩ else 0⟩

/-- Embedding of np.linspace(0, stop, num).astype(np.int_) for a natural
stop: num evenly spaced picks from 0 to stop inclusive, truncated to
integers; the float arithmetic is modelled exactly, the truncation of the
nonnegative values being ℕ division. -/
def linspaceIdx (stop num : ℕ) : List ℕ :=
  (List.range num).map (fun i => if num ≤ 1 then 0 else i * stop / (num - 1))

/-- Embedding of np.take(a, indices, axis=1). -/
def takeAxis1 (a : Arr4) (indices : List ℕ) : Arr4 :=
  ⟨a.d0, indices.length, a.d2, a.d3,
    fun i j k l => a.px i (indices.getD j 0) k l⟩

/-- Embedding of pack_pathway_output: the fast pathway is the input, the
slow pathway takes frames.shape[1] // alpha evenly spaced (linspace)
picks along the temporal axis; returns [slow_pathway, fast_pathway]. -/
def pack_pathway_output (frames : Arr4) (alpha : ℕ) : List Arr4 :=
  let fast_pathway := frames
  let slow_pathway :=
    takeAxis1 frames (linspaceIdx (frames.d1 - 1) (frames.d1 / alpha))
  [slow_pathway, fast_pathway]

/-- The np.expand_dims(inp, 0) step. -/
def expandDims0 (a : Arr4) : Arr5 :=
  ⟨1, a.d0, a.d1, a.d2, a.d3,
    fun n i j k l => if n = 0 then a.px i j k l else 0⟩

/-- Embedding of process_inputs: scale the short sides, center crop,
divide by 255, normalize, transpose to (C, T, H, W), sample num_frames
frames with linspace picks, pack the two pathways and expand their batch
dims.  A failing assert inside center_crop propagates as none, and the
crash of transpose on an empty stacked array (np.array([]) has rank 1)
is modelled as none. -/
def process_inputs (frames : List Image) (num_frames crop_size : ℕ)
    (mean std : Fin 3 → ℚ) : Option (List Arr5) := do
  let scaled := frames.map (scale_short_side crop_size)
  let cropped ← scaled.mapM (center_crop crop_size)
  if cropped.isEmpty then none
  else
    let arr := normalize mean std (div255 (stackFrames cropped))
    let t := transposeCTHW arr
    let indices := linspaceIdx (t.d1 - 1) num_frames
    let sampled := takeAxis1 t indices
    some ((pack_pathway_output sampled 4).map expandDims0)

/-- Embedding of the frame-collection loop of run_inference:

    ret = True
    while ret and len(frames) < seq_length:
        ret, frame = video_cap.read()
        frames.append(frame)

A read at a position inside the video returns that frame; a read past the
end returns ret = False with frame = None, which the loop still appends
before exiting.  The fuel is the remaining capacity seq_length - len. -/
def collectGo (video : List Image) (pos fuel : ℕ) : List (Option Image) :=
  match fuel with
  | 0 => []
  | fuel' + 1 =>
    match video[pos]? with
    | some f => some f :: collectGo video (pos + 1) fuel'
    | none => [none]

/-- The frames list collected by run_inference from a video of given
frames for seq_length = num_frames * sampling_rate. -/
def collectFrames (video : List Image) (seq_length : ℕ) : List (Option Image) :=
  collectGo video 0 seq_length

/-- process_inputs as called by run_inference on the collected frames: a
None frame (appended by the loop after a failed read) makes
scale_short_side raise AttributeError on frame.shape, modelled as
failure of the whole preprocessing. -/
def process_inputs_reads (frames : List (Option Image))
    (num_frames crop_size : ℕ) (mean std : Fin 3 → ℚ) : Option (List Arr5) := do
  let fs ← frames.mapM id
  process_inputs fs num_frames crop_size mean std

/-- The preprocessing stage of run_inference: collect up to
num_frames * sampling_rate frames from the video, then process_inputs. -/
def run_inference_preprocess (video : List Image)
    (num_frames sampling_rate crop_size : ℕ) (mean std : Fin 3 → ℚ) :
    Option (List Arr5) :=
  process_inputs_reads (collectFrames video (num_frames * sampling_rate))
    num_frames crop_size mean std

/-- The exact output shapes demanded by the target specification of the
dual-pathway model: a batch of one, three channels, num_frames
(respectively num_frames // 4) time steps and square crop_size frames. -/
def pathwayShapes (out : List Arr5) (num_frames crop_size : ℕ) : Prop :=
  ∃ slow fast, out = [slow, fast] ∧
    (fast.d0, fast.d1, fast.d2, fast.d3, fast.d4) =
      (1, 3, num_frames, crop_size, crop_size) ∧
    (slow.d0, slow.d1, slow.d2, slow.d3, slow.d4) =
      (1, 3, num_frames / 4, crop_size, crop_size)

/-! ## run_inference postprocessing (softmax, argsort, labels) and the
    embed_utterance normalization (reals model the float arithmetic) -/

/-- Embedding of the local softmax of run_inference:
np.exp(x) / np.exp(x).sum(axis=None), on the single-batch score vector. -/
noncomputable def softmax {n : ℕ} (x : Fin n → ℝ) : Fin n → ℝ :=
  fun i => Real.exp (x i) / ∑ j, Real.exp (x j)

/-- Embedding of np.argsort(-1 * v): the indices sorted by descending
value.  The tie order of the default numpy sort is not specified beyond
the comparison key; ties are modelled as broken by ascending index, which
makes the comparison a linear order on indices. -/
noncomputable def argsortNeg {n : ℕ} (v : Fin n → ℝ) : List (Fin n) :=
  List.insertionSort (fun i j => v j < v i ∨ (v i = v j ∧ i ≤ j)) (List.finRange n)

/-- Embedding of the postprocessing tail of run_inference:

    predictions = softmax(predictions)
    topk = 5
    pred_classes = np.argsort(-1 * predictions, axis=1)[:, :topk]
    pred_class_names = [id_to_label_mapping[int(i)] for i in pred_classes[0]]

on the single-batch prediction vector.  The top_k parameter is carried
exactly as in the source signature. -/
noncomputable def run_inference_post (n : ℕ) (top_k : ℕ)
    (id_to_label_mapping : ℕ → String) (predictions : Fin n → ℝ) :
    List String :=
  let predictions := softmax predictions
  let topk := 5
  let pred_classes := (argsortNeg predictions).take topk
  pred_classes.map (fun i => id_to_label_mapping i.val)

/-- The L2 norm np.linalg.norm(v, 2) of a vector. -/
noncomputable def l2norm {d : ℕ} (v : Fin d → ℝ) : ℝ :=
  Real.sqrt (∑ i, v i ^ 2)

/-- The mean np.mean(partial_embeds, axis=0) of the rows of a matrix. -/
noncomputable def meanEmbed (m d : ℕ) (partial_embeds : Fin m → Fin d → ℝ) :
    Fin d → ℝ :=
  fun i => (∑ k, partial_embeds k i) / (m : ℝ)

/-- Embedding of the final normalization of embed_utterance:

    raw_embed = np.mean(partial_embeds, axis=0)
    embed = raw_embed / np.linalg.norm(raw_embed, 2)

The partial embeddings are produced by the opaque compiled speaker
encoder model and enter here as an arbitrary real matrix. -/
noncomputable def embed_utterance_embed (m d : ℕ)
    (partial_embeds : Fin m → Fin d → ℝ) : Fin d → ℝ :=
  let raw_embed := meanEmbed m d partial_embeds
  fun i => raw_embed i / l2norm raw_embed

/-- A concrete 32-frame single-channel 1 x 1 test clip whose pixel value
records the time index of its frame. -/
def sampleArr : Arr4 := ⟨1, 32, 1, 1, fun _ t _ _ => (t : ℚ)⟩

/-! ## Claim theorems: C4, C7 -/

/-- C4: the Conversion Step is idempotent: when the cached artifact file
already exists the step performs no write (the file content is unchanged),
and running the step a second time with the same source and cache path
leaves the cached artifact identical to what the first run left. -/
theorem C4_conversion_idempotent {Src Art : Type} (convert : Src → Art)
    (source : Src) (a : Art) (cache : Option Art) :
    (conversion_step convert source (some a)).2 = some a ∧
      (conversion_step convert source
          (conversion_step convert source cache).2).2 =
        (conversion_step convert source cache).2 := by
  refine ⟨rfl, ?_⟩
  cases cache <;> rfl

/-- C7: with `convert_audio` equal to the identity (sample rate and channel
count already match the model) the EnCodec demo adaptors round-trip every
in-range int16 waveform exactly: `postprocess (preprocess w) = w`. -/
theorem C7_roundtrip (convert_audio : List (List ℚ) → List (List ℚ))
    (w : List ℤ) (hca : convert_audio = id)
    (hw : ∀ x ∈ w, -2 ^ 15 ≤ x ∧ x < 2 ^ 15) :
    postprocess (preprocess convert_audio w) = w := by
  subst hca
  unfold preprocess postprocess
  rw [id_eq, List.headD_cons, List.map_map]
  refine (List.map_congr_left ?_).trans (List.map_id w)
  intro x hx
  have h1 : ((x : ℚ) / 2 ^ 15) * 2 ^ 15 = (x : ℚ) := by
    field_simp
  have h2 : ratTrunc ((x : ℚ)) = x := by
    unfold ratTrunc
    rcases le_or_lt 0 x with h | h
    · rw [if_pos (by exact_mod_cast h), Int.floor_intCast]
    · rw [if_neg (not_le.mpr (by exact_mod_cast h)), Int.ceil_intCast]
  have h3 : int16cast x = x := by
    have := hw x hx
    unfold int16cast
    omega
  simp only [Function.comp_apply, h1, h2, h3, id_eq]

/-- Witness for C7 at a concrete two-sample waveform. -/
theorem C7_roundtrip_witness :
    (id : List (List ℚ) → List (List ℚ)) = id ∧
      (∀ x ∈ ([5, -3] : List ℤ), -2 ^ 15 ≤ x ∧ x < 2 ^ 15) ∧
      postprocess (preprocess id [5, -3]) = [5, -3] :=
  ⟨rfl, by decide, C7_roundtrip id [5, -3] rfl (by decide)⟩

/-- Evaluation of compute_partial_slices on every asset shorter than one
minimum processing window (160 frames of 160 samples), at the default
hyperparameters and the default rate 1.3 and min_coverage 0.75 of
embed_utterance: the result is always the single window slice. -/
theorem compute_partial_slices_short_eval (n : ℕ) (h : n < 25600) :
    compute_partial_slices 16000 10 160 n (13 / 10) (3 / 4) =
      some ([(0, 25600)], [(0, 160)]) := by
  set_option maxRecDepth 4000 in
  simp only [compute_partial_slices, roundHalfEven, pyRange]
  norm_num
  rw [show Int.toNat 77 = 77 from rfl]
  rcases Nat.lt_or_ge n 25440 with hA | hB
  · rw [show (1 ⊔ (n / 160 + 1 + 77 + 1 - 160) + 77 - 1) / 77 = 1 from by omega]
    norm_num [List.range_succ]
  · rw [show (1 ⊔ (n / 160 + 1 + 77 + 1 - 160) + 77 - 1) / 77 = 2 from by omega]
    have hcov : ((n : ℚ) - 12320) / 25600 < 3 / 4 := by
      rw [div_lt_iff₀ (by norm_num)]
      have hn : (n : ℚ) ≤ 25599 := by exact_mod_cast Nat.le_of_lt_succ (by omega)
      linarith
    norm_num [List.range_succ, hcov]

/-- C1 counterexample: the asset of 1600 samples (0.1 s at 16 kHz) is
shorter than one minimum processing window of 160 frames (25600 samples)
and its coverage 1600/25600 is far below the 0.75 threshold, yet
compute_partial_slices (at the default hparams 16000/10/160 and default
rate 1.3) keeps the single undersized unit instead of dropping it. -/
theorem C1_counterexample :
    compute_partial_slices 16000 10 160 1600 (13 / 10) (3 / 4) =
        some ([(0, 25600)], [(0, 160)]) ∧
      1600 < 160 * (16000 * 10 / 1000) ∧
      ((1600 : ℚ) - 0) / ((25600 : ℚ) - 0) < 3 / 4 := by
  exact ⟨compute_partial_slices_short_eval 1600 (by norm_num), by norm_num,
    by norm_num⟩

/-- C1 amended: for every asset shorter than one minimum processing window
(partials_n_frames * samples_per_frame = 25600 samples at the default
hyperparameters), compute_partial_slices with rate 1.3 and min_coverage
0.75 returns exactly one slice covering the full window: when the coverage
is at least 0.75 the last unit is kept for zero-padding, and when the
coverage is below 0.75 the undersized unit is dropped only when it is not
the only one — a single remaining unit is always kept, so the function
never returns zero slices. -/
theorem C1_short_asset_amended (n_samples : ℕ)
    (h : n_samples < 160 * (16000 * 10 / 1000)) :
    compute_partial_slices 16000 10 160 n_samples (13 / 10) (3 / 4) =
      some ([(0, 25600)], [(0, 160)]) :=
  compute_partial_slices_short_eval n_samples (by omega)

/-- Witness for the amended C1 at an asset of 20000 samples (coverage
20000/25600 ≈ 0.78, above the threshold). -/
theorem C1_short_asset_amended_witness :
    20000 < 160 * (16000 * 10 / 1000) ∧
      compute_partial_slices 16000 10 160 20000 (13 / 10) (3 / 4) =
        some ([(0, 25600)], [(0, 160)]) :=
  ⟨by norm_num, C1_short_asset_amended 20000 (by norm_num)⟩

/-! ### Helper lemmas for the SlowFast pipeline shapes -/

/-- A successful center crop has the requested square shape. -/
theorem center_crop_some_dims {size : ℕ} {f g : Image}
    (h : center_crop size f = some g) : g.height = size ∧ g.width = size := by
  simp only [center_crop] at h
  split at h
  · cases h
    exact ⟨rfl, rfl⟩
  · cases h

/-- Scaling the short side to size keeps both sides at least size when
they already are. -/
theorem scale_short_side_dims {size : ℕ} (f : Image)
    (hh : size ≤ f.height) (hw : size ≤ f.width) :
    size ≤ (scale_short_side size f).height ∧
      size ≤ (scale_short_side size f).width := by
  unfold scale_short_side
  rcases Nat.eq_zero_or_pos size with hs | hs
  · subst hs
    split
    · exact ⟨Nat.zero_le _, Nat.zero_le _⟩
    · split <;> exact ⟨Nat.zero_le _, Nat.zero_le _⟩
  · split
    · exact ⟨hh, hw⟩
    · split
      · next hlt =>
          refine ⟨?_, le_refl size⟩
          have hw0 : 0 < f.width := lt_of_lt_of_le hs hw
          show size ≤ f.height * size / f.width
          rw [Nat.le_div_iff_mul_le hw0]
          calc size * f.width ≤ size * f.height :=
                Nat.mul_le_mul_left size (le_of_lt hlt)
            _ = f.height * size := Nat.mul_comm _ _
      · next hge =>
          refine ⟨le_refl size, ?_⟩
          have hge2 : f.height ≤ f.width := Nat.le_of_not_lt hge
          have hh0 : 0 < f.height := lt_of_lt_of_le hs hh
          show size ≤ f.width * size / f.height
          rw [Nat.le_div_iff_mul_le hh0]
          calc size * f.height ≤ size * f.width := Nat.mul_le_mul_left size hge2
            _ = f.width * size := Nat.mul_comm _ _

/-- A frame with both sides at least size crops successfully. -/
theorem center_crop_of_ge {size : ℕ} (f : Image)
    (hh : size ≤ f.height) (hw : size ≤ f.width) :
    ∃ g, center_crop size f = some g := by
  unfold center_crop
  have hyc : (0 : ℤ) ≤ ⌈((f.height : ℚ) - (size : ℚ)) / 2⌉ := by
    apply Int.ceil_nonneg
    have : (0 : ℚ) ≤ (f.height : ℚ) - (size : ℚ) := by
      rw [sub_nonneg]
      exact_mod_cast hh
    positivity
  have hxc : (0 : ℤ) ≤ ⌈((f.width : ℚ) - (size : ℚ)) / 2⌉ := by
    apply Int.ceil_nonneg
    have : (0 : ℚ) ≤ (f.width : ℚ) - (size : ℚ) := by
      rw [sub_nonneg]
      exact_mod_cast hw
    positivity
  have hyb : ⌈((f.height : ℚ) - (size : ℚ)) / 2⌉ ≤ (f.height : ℤ) - (size : ℤ) := by
    rw [Int.ceil_le]
    push_cast
    have h0 : (0 : ℚ) ≤ (f.height : ℚ) - (size : ℚ) := by
      rw [sub_nonneg]; exact_mod_cast hh
    linarith [half_le_self h0]
  have hxb : ⌈((f.width : ℚ) - (size : ℚ)) / 2⌉ ≤ (f.width : ℤ) - (size : ℤ) := by
    rw [Int.ceil_le]
    push_cast
    have h0 : (0 : ℚ) ≤ (f.width : ℚ) - (size : ℚ) := by
      rw [sub_nonneg]; exact_mod_cast hw
    linarith [half_le_self h0]
  refine ⟨_, if_pos ⟨hyc, hxc, ?_, ?_⟩⟩ <;> omega

/-- mapM over Option succeeds elementwise-successfully, preserving
length. -/
theorem mapM_some_of_forall {α β : Type} (f : α → Option β) :
    ∀ l : List α, (∀ x ∈ l, ∃ y, f x = some y) →
      ∃ l', l.mapM f = some l' ∧ l'.length = l.length := by
  intro l
  induction l with
  | nil => intro _; exact ⟨[], rfl, rfl⟩
  | cons a l ih =>
      intro h
      obtain ⟨y, hy⟩ := h a (List.mem_cons_self a l)
      obtain ⟨l', hl', hlen⟩ := ih (fun x hx => h x (List.mem_cons_of_mem a hx))
      refine ⟨y :: l', ?_, by simp [hlen]⟩
      rw [List.mapM_cons, hy, hl']
      rfl

/-- Every element of a successful mapM image comes from a successful
application on a list element. -/
theorem mapM_some_mem {α β : Type} (f : α → Option β) :
    ∀ (l : List α) (l' : List β), l.mapM f = some l' →
      ∀ y ∈ l', ∃ x ∈ l, f x = some y := by
  intro l
  induction l with
  | nil =>
      intro l' h y hy
      simp only [List.mapM_nil, pure, Option.some_inj] at h
      subst h
      cases hy
  | cons a l ih =>
      intro l' h y hy
      rw [List.mapM_cons] at h
      cases ha : f a with
      | none => rw [ha] at h; cases h
      | some b =>
          rw [ha] at h
          cases hl : l.mapM f with
          | none =>
              rw [hl] at h
              cases h
          | some bs =>
              rw [hl] at h
              have h9 : some (b :: bs) = some l' := h
              have h8 : b :: bs = l' := Option.some_inj.mp h9
              subst h8
              rcases List.mem_cons.mp hy with hb | hbs
              · exact ⟨a, List.mem_cons_self a l, hb ▸ ha⟩
              · obtain ⟨x, hx, hfx⟩ := ih bs hl y hbs
                exact ⟨x, List.mem_cons_of_mem a hx, hfx⟩

/-- The shapes produced by a successful process_inputs run are exactly
the target shapes. -/
theorem process_inputs_shapes (frames : List Image) (nf cs : ℕ)
    (mean std : Fin 3 → ℚ) (out : List Arr5)
    (h : process_inputs frames nf cs mean std = some out) :
    pathwayShapes out nf cs := by
  simp only [process_inputs] at h
  cases hm : (frames.map (scale_short_side cs)).mapM (center_crop cs) with
  | none =>
      rw [hm] at h
      exact Option.noConfusion h
  | some cropped =>
      rw [hm] at h
      simp only [Option.bind_eq_bind, Option.some_bind] at h
      by_cases hemp : cropped.isEmpty
      · rw [if_pos hemp] at h
        exact Option.noConfusion h
      · rw [if_neg hemp] at h
        have hbody := Option.some_inj.mp h
        cases cropped with
        | nil => simp at hemp
        | cons g rest =>
            obtain ⟨x, _hx, hcx⟩ := mapM_some_mem (center_crop cs) _ _ hm g
              (List.mem_cons_self g rest)
            obtain ⟨hgh, hgw⟩ := center_crop_some_dims hcx
            refine ⟨_, _, hbody.symm, ?_, ?_⟩
            · simp [pack_pathway_output, takeAxis1, expandDims0, transposeCTHW,
                normalize, div255, stackFrames, linspaceIdx, hgh, hgw]
            · simp [pack_pathway_output, takeAxis1, expandDims0, transposeCTHW,
                normalize, div255, stackFrames, linspaceIdx, hgh, hgw]

/-- The collection loop appends the failed read when the video runs out
before the capacity is reached. -/
theorem none_mem_collectGo (video : List Image) :
    ∀ fuel pos, pos ≤ video.length → video.length < pos + fuel →
      none ∈ collectGo video pos fuel := by
  intro fuel
  induction fuel with
  | zero => intro pos h1 h2; omega
  | succ fuel ih =>
      intro pos h1 h2
      unfold collectGo
      cases hv : video[pos]? with
      | some f =>
          have hlt : pos < video.length := by
            rcases List.getElem?_eq_some.mp hv with ⟨hp, _⟩
            exact hp
          exact List.mem_cons_of_mem _ (ih (pos + 1) hlt (by omega))
      | none => exact List.mem_singleton.mpr rfl

/-- mapM of the identity over Option fails as soon as the list contains a
None. -/
theorem mapM_id_none {α : Type} :
    ∀ l : List (Option α), none ∈ l →
      l.mapM (id : Option α → Option α) = none := by
  intro l
  induction l with
  | nil => intro h; cases h
  | cons a l ih =>
      intro h
      rcases List.mem_cons.mp h with ha | hl
      · subst ha
        rw [List.mapM_cons]
        rfl
      · rw [List.mapM_cons, ih hl]
        cases a <;> rfl

/-! ### Claim theorems: C3, C8 -/

/-- C3: for every non-empty list of frames each with both spatial sides
at least crop_size, process_inputs returns exactly two arrays whose
shapes equal the target specification exactly: the fast pathway has shape
(1, 3, num_frames, crop_size, crop_size) and the slow pathway has shape
(1, 3, num_frames // 4, crop_size, crop_size), with alpha = 4. -/
theorem C3_shape_invariant (frames : List Image) (num_frames crop_size : ℕ)
    (mean std : Fin 3 → ℚ) (hne : frames ≠ [])
    (hdim : ∀ f ∈ frames, crop_size ≤ f.height ∧ crop_size ≤ f.width) :
    ∃ out, process_inputs frames num_frames crop_size mean std = some out ∧
      pathwayShapes out num_frames crop_size := by
  obtain ⟨cropped, hm, hlen⟩ :=
    mapM_some_of_forall (center_crop crop_size)
      (frames.map (scale_short_side crop_size)) (by
        intro x hx
        obtain ⟨f, hf, rfl⟩ := List.mem_map.mp hx
        obtain ⟨h1, h2⟩ := hdim f hf
        obtain ⟨d1, d2⟩ := scale_short_side_dims f h1 h2
        exact center_crop_of_ge _ d1 d2)
  have hne2 : ¬(cropped.isEmpty = true) := by
    have hpos : 0 < cropped.length := by
      rw [hlen, List.length_map]
      exact List.length_pos.mpr hne
    cases cropped with
    | nil => cases hpos
    | cons a l => simp
  have hrun : ∃ out,
      process_inputs frames num_frames crop_size mean std = some out := by
    simp only [process_inputs]
    rw [hm]
    simp only [Option.bind_eq_bind, Option.some_bind]
    rw [if_neg hne2]
    exact ⟨_, rfl⟩
  obtain ⟨out, hout⟩ := hrun
  exact ⟨out, hout,
    process_inputs_shapes frames num_frames crop_size mean std out hout⟩

/-- Witness for C3 on a single 2 x 2 frame with crop_size 2 and
num_frames 8. -/
theorem C3_shape_invariant_witness :
    ([(⟨2, 2, fun _ _ _ => 0⟩ : Image)] ≠ []) ∧
      (∀ f ∈ [(⟨2, 2, fun _ _ _ => 0⟩ : Image)],
        2 ≤ f.height ∧ 2 ≤ f.width) ∧
      ∃ out, process_inputs [(⟨2, 2, fun _ _ _ => 0⟩ : Image)] 8 2
          (fun _ => 0) (fun _ => 1) = some out ∧ pathwayShapes out 8 2 :=
  ⟨List.cons_ne_nil _ _,
    by
      intro f hf
      rw [List.mem_singleton] at hf
      subst hf
      exact ⟨le_refl 2, le_refl 2⟩,
    C3_shape_invariant [⟨2, 2, fun _ _ _ => 0⟩] 8 2 (fun _ => 0) (fun _ => 1)
      (List.cons_ne_nil _ _) (by
        intro f hf
        rw [List.mem_singleton] at hf
        subst hf
        exact ⟨le_refl 2, le_refl 2⟩)⟩

/-- C8: the preprocessing of run_inference either fails or returns
tensors of exactly the target shapes; in particular a video with fewer
than num_frames * sampling_rate readable frames makes it fail (the loop
appends the None of the failed read, on which the first preprocessing
step crashes) rather than return a wrong-shaped tensor. -/
theorem C8_preprocess_contract (video : List Image)
    (num_frames sampling_rate crop_size : ℕ) (mean std : Fin 3 → ℚ) :
    (video.length < num_frames * sampling_rate →
      run_inference_preprocess video num_frames sampling_rate crop_size
        mean std = none) ∧
    (∀ out, run_inference_preprocess video num_frames sampling_rate
        crop_size mean std = some out →
      pathwayShapes out num_frames crop_size) := by
  constructor
  · intro hshort
    have hnone : none ∈ collectFrames video (num_frames * sampling_rate) :=
      none_mem_collectGo video (num_frames * sampling_rate) 0
        (Nat.zero_le _) (by omega)
    have hmap := mapM_id_none _ hnone
    unfold run_inference_preprocess process_inputs_reads
    rw [hmap]
    rfl
  · intro out hout
    unfold run_inference_preprocess process_inputs_reads at hout
    cases hfs : (collectFrames video (num_frames * sampling_rate)).mapM
        (id : Option Image → Option Image) with
    | none =>
        rw [hfs] at hout
        exact Option.noConfusion hout
    | some fs =>
        rw [hfs] at hout
        have hpi : process_inputs fs num_frames crop_size mean std =
            some out := hout
        exact process_inputs_shapes fs num_frames crop_size mean std out hpi

/-- Witness for C8 on the empty video with seq_length 1: the
preprocessing fails. -/
theorem C8_preprocess_contract_witness :
    ([] : List Image).length < 1 * 1 ∧
      run_inference_preprocess [] 1 1 1 (fun _ => 0) (fun _ => 1) = none :=
  ⟨by decide,
    (C8_preprocess_contract [] 1 1 1 (fun _ => 0) (fun _ => 1)).1 (by decide)⟩

/-- The linspace picks evaluated at an in-range position, for two or
more picks. -/
theorem linspaceIdx_getD (stop num j : ℕ) (hj : j < num) (h2 : 2 ≤ num) :
    (linspaceIdx stop num).getD j 0 = j * stop / (num - 1) := by
  unfold linspaceIdx
  rw [List.getD_eq_getElem _ _ (by simpa using hj)]
  rw [List.getElem_map, List.getElem_range]
  rw [if_neg (by omega)]

/-- C5 counterexample: on the 32-frame clip with alpha = 4, the fourth
slow-pathway frame (j = 3) is fast frame 13 = floor(3 * 31 / 7), not
fast frame 3 * alpha = 12 as the claim states. -/
theorem C5_counterexample :
    ((pack_pathway_output sampleArr 4).headD arr4zero).px 0 3 0 0 = 13 ∧
      sampleArr.px 0 (3 * 4) 0 0 = 12 ∧ (13 : ℚ) ≠ 12 := by
  refine ⟨?_, ?_, by norm_num⟩
  · show ((linspaceIdx (sampleArr.d1 - 1) (sampleArr.d1 / 4)).getD 3 0 : ℚ) = 13
    norm_num [sampleArr, linspaceIdx, List.range_succ]
  · norm_num [sampleArr]

/-- C5 amended: for every frames array and positive alpha, the slow
pathway returned by pack_pathway_output has T // alpha time steps and
consists of frames of the fast pathway taken at the evenly spaced
linspace indices floor(j * (T - 1) / (T // alpha - 1)) (when at least two
picks are taken) — not at the stride-alpha multiples — and each slow
frame is spatially identical to the fast frame at its pick index. -/
theorem C5_slow_pathway (A : Arr4) (alpha : ℕ) (ha : 0 < alpha) :
    ∃ slow, pack_pathway_output A alpha = [slow, A] ∧
      slow.d0 = A.d0 ∧ slow.d1 = A.d1 / alpha ∧ slow.d2 = A.d2 ∧
      slow.d3 = A.d3 ∧
      (∀ i j k l, slow.px i j k l =
        A.px i ((linspaceIdx (A.d1 - 1) (A.d1 / alpha)).getD j 0) k l) ∧
      (∀ j, j < A.d1 / alpha → 2 ≤ A.d1 / alpha →
        (linspaceIdx (A.d1 - 1) (A.d1 / alpha)).getD j 0 =
          j * (A.d1 - 1) / (A.d1 / alpha - 1)) := by
  refine ⟨_, rfl, rfl, ?_, rfl, rfl, fun i j k l => rfl, ?_⟩
  · show (linspaceIdx (A.d1 - 1) (A.d1 / alpha)).length = A.d1 / alpha
    simp [linspaceIdx]
  · intro j hj h2
    exact linspaceIdx_getD _ _ _ hj h2

/-- Witness for the amended C5 on the 32-frame clip with alpha = 4. -/
theorem C5_slow_pathway_witness :
    0 < 4 ∧
      ∃ slow, pack_pathway_output sampleArr 4 = [slow, sampleArr] ∧
        slow.d0 = sampleArr.d0 ∧ slow.d1 = sampleArr.d1 / 4 ∧
        slow.d2 = sampleArr.d2 ∧ slow.d3 = sampleArr.d3 ∧
        (∀ i j k l, slow.px i j k l = sampleArr.px i
          ((linspaceIdx (sampleArr.d1 - 1) (sampleArr.d1 / 4)).getD j 0) k l) ∧
        (∀ j, j < sampleArr.d1 / 4 → 2 ≤ sampleArr.d1 / 4 →
          (linspaceIdx (sampleArr.d1 - 1) (sampleArr.d1 / 4)).getD j 0 =
            j * (sampleArr.d1 - 1) / (sampleArr.d1 / 4 - 1)) :=
  ⟨by decide, C5_slow_pathway sampleArr 4 (by decide)⟩

/-! ### Claim theorems: C6, C9, C10 -/

/-- Insertion sort depends only on the sorting relation, not on the
decidability instance. -/
theorem insertionSort_rel_congr {α : Type} {r s : α → α → Prop}
    (dr : DecidableRel r) (ds : DecidableRel s) (h : r = s) (l : List α) :
    @List.insertionSort α r dr l = @List.insertionSort α s ds l := by
  subst h
  have hd : dr = ds := by
    funext a b
    exact Subsingleton.elim _ _
  rw [hd]

/-- C6: the postprocessing of run_inference is a pure function of the
prediction vector equal to: take the top-5 indices of the RAW scores in
descending order (ties by ascending index) and map them through the
id-to-label table — the softmax applied before the argsort does not
change the ranking, being strictly monotone in exact arithmetic. -/
theorem C6_post_ranking (n : ℕ) (top_k : ℕ) (table : ℕ → String)
    (p : Fin n → ℝ) :
    argsortNeg (softmax p) = argsortNeg p ∧
      run_inference_post n top_k table p =
        ((argsortNeg p).take 5).map (fun i => table i.val) := by
  have key : argsortNeg (softmax p) = argsortNeg p := by
    unfold argsortNeg
    apply insertionSort_rel_congr
    funext i j
    have hne : (Finset.univ : Finset (Fin n)).Nonempty := ⟨i, Finset.mem_univ i⟩
    have hS : 0 < ∑ k, Real.exp (p k) :=
      Finset.sum_pos (fun k _ => Real.exp_pos (p k)) hne
    have hlt : softmax p j < softmax p i ↔ p j < p i := by
      unfold softmax
      rw [div_lt_div_iff_of_pos_right hS]
      exact Real.exp_lt_exp
    have heq : softmax p i = softmax p j ↔ p i = p j := by
      unfold softmax
      rw [div_eq_div_iff hS.ne' hS.ne']
      constructor
      · intro hmul
        exact Real.exp_eq_exp.mp (mul_right_cancel₀ hS.ne' hmul)
      · intro hpq
        rw [hpq]
    exact propext (or_congr hlt (and_congr heq Iff.rfl))
  refine ⟨key, ?_⟩
  simp only [run_inference_post]
  rw [key]

/-- C9: run_inference ignores its top_k parameter — the postprocessing
output is unchanged under any change of top_k, and the number of
returned labels is the hard-coded 5 whenever at least 5 classes exist. -/
theorem C9_topk_ignored (n : ℕ) (hn : 5 ≤ n) (k1 k2 : ℕ)
    (table : ℕ → String) (p : Fin n → ℝ) :
    run_inference_post n k1 table p = run_inference_post n k2 table p ∧
      (run_inference_post n k1 table p).length = 5 := by
  refine ⟨rfl, ?_⟩
  simp only [run_inference_post]
  rw [List.length_map, List.length_take]
  unfold argsortNeg
  rw [List.length_insertionSort, List.length_finRange]
  omega

/-- Witness for C9 with 5 classes and top_k values 0 and 7. -/
theorem C9_topk_ignored_witness :
    5 ≤ 5 ∧
      (run_inference_post 5 0 (fun _ => "") (fun _ => 0) =
          run_inference_post 5 7 (fun _ => "") (fun _ => 0) ∧
        (run_inference_post 5 0 (fun _ => "") (fun _ => 0)).length = 5) :=
  ⟨by decide,
    C9_topk_ignored 5 (by decide) 0 7 (fun _ => "") (fun _ => 0)⟩

/-- C10: whenever the mean of the partial embeddings is nonzero, the
utterance embedding raw_embed / norm(raw_embed, 2) returned by
embed_utterance has L2 norm exactly 1, for any number of partial
slices. -/
theorem C10_embed_unit_norm (m d : ℕ) (partial_embeds : Fin m → Fin d → ℝ)
    (h : ∃ i, meanEmbed m d partial_embeds i ≠ 0) :
    l2norm (embed_utterance_embed m d partial_embeds) = 1 := by
  obtain ⟨i0, hi0⟩ := h
  have hS : 0 < ∑ i, meanEmbed m d partial_embeds i ^ 2 := by
    apply Finset.sum_pos'
    · intro i _
      exact sq_nonneg _
    · exact ⟨i0, Finset.mem_univ _, pow_two_pos_of_ne_zero hi0⟩
  have hgoal : l2norm (embed_utterance_embed m d partial_embeds) =
      Real.sqrt (∑ i, (meanEmbed m d partial_embeds i /
        Real.sqrt (∑ j, meanEmbed m d partial_embeds j ^ 2)) ^ 2) := rfl
  rw [hgoal]
  have hsum : ∑ i, (meanEmbed m d partial_embeds i /
      Real.sqrt (∑ j, meanEmbed m d partial_embeds j ^ 2)) ^ 2 = 1 := by
    rw [Finset.sum_congr rfl
      (fun i _ => div_pow (meanEmbed m d partial_embeds i) _ 2)]
    rw [← Finset.sum_div, Real.sq_sqrt hS.le]
    exact div_self hS.ne'
  rw [hsum, Real.sqrt_one]

/-- Witness for C10 on a single constant partial embedding of dimension
one. -/
theorem C10_embed_unit_norm_witness :
    (∃ i, meanEmbed 1 1 (fun _ _ => (2 : ℝ)) i ≠ 0) ∧
      l2norm (embed_utterance_embed 1 1 (fun _ _ => (2 : ℝ))) = 1 :=
  ⟨⟨0, by norm_num [meanEmbed, Fin.sum_univ_one]⟩,
    C10_embed_unit_norm 1 1 (fun _ _ => (2 : ℝ))
      ⟨0, by norm_num [meanEmbed, Fin.sum_univ_one]⟩⟩

end OVNB
